import Mathlib

set_option autoImplicit false

/-!
Verification development for `adls_shipments_clt_export.py`: a single-pass
traversal of a cloud object store (date directory → PRO directory → JSON
object), filtering records on a "current terminal" field and exporting one
tabular file.  The Python functions are shallowly embedded as executable Lean
definitions over an explicit store model; Python dicts are insertion-ordered
association lists with unique keys (as produced by `json.load`), Python
string operations are modelled on their character data (ASCII, as used by
the store paths and key names in question).
-/

namespace RouteMax

/-! ### String helpers -/

/-- Python `str.lower()` (ASCII range, via `Char.toLower`). -/
def strLower (s : String) : String := String.mk (s.data.map Char.toLower)

/-- Splitting a character list on a separator, keeping empty segments,
exactly like Python `str.split(sep)` for a one-character separator. -/
def splitOnCharAux (sep : Char) : List Char → List Char → List (List Char)
  | [], cur => [cur.reverse]
  | c :: rest, cur =>
    if c == sep then cur.reverse :: splitOnCharAux sep rest []
    else splitOnCharAux sep rest (c :: cur)

/-- Python `s.split("/")[-1]` — the trailing path segment (split never
returns an empty list, so `[-1]` is total). -/
def lastSeg (s : String) : String :=
  String.mk ((splitOnCharAux '/' s.data []).getLastD [])

/-- Python `s.rstrip("/")`: drop every trailing `'/'`. -/
def rstripSlash (s : String) : String :=
  String.mk ((s.data.reverse.dropWhile (fun c => c == '/')).reverse)

/-- Python `s.endswith("/")` for a one-character suffix. -/
def endsWithSlash (s : String) : Bool := s.data.getLast? == some '/'

/-- Python `entry["name"].lower().endswith(".json")`. -/
def lowerEndsWithJson (s : String) : Bool :=
  List.isSuffixOf ".json".data (strLower s).data

/-! ### JSON values and Python dict operations -/

/-- Parsed JSON values (`json.load` output). -/
inductive Json where
  | null
  | bool (b : Bool)
  | num (n : Int)
  | str (s : String)
  | arr (xs : List Json)
  | obj (fields : List (String × Json))

/-- A JSON object payload — a Python `dict` in insertion order. -/
abbrev JObj := List (String × Json)

/-- Python `k in d`. -/
def dictContains (m : JObj) (k : String) : Bool := m.any (fun p => p.1 == k)

/-- Python `d.get(k)` / `d[k]` (dict keys are unique, so first match). -/
def dictGet? (m : JObj) (k : String) : Option Json :=
  (m.find? (fun p => p.1 == k)).map (·.2)

/-- Python `d[k] = v`: overwrite in place when the key exists (dicts keep
the original insertion position), append otherwise. -/
def dictInsert (m : JObj) (k : String) (v : Json) : JObj :=
  if dictContains m k then m.map (fun p => if p.1 == k then (k, v) else p)
  else m ++ [(k, v)]

/-- The dict comprehension `{k.lower(): v for k, v in obj.items()}`
(a later key that lowercases equal overwrites an earlier one). -/
def lowerMap (m : JObj) : JObj :=
  m.foldl (fun acc p => dictInsert acc (strLower p.1) p.2) []

/-- Python `curr == terminal` where `curr` is an optional decoded JSON value
and `terminal` a `str`: only a string value can compare equal. -/
def pyEq (c : Option Json) (t : String) : Bool :=
  match c with
  | some (Json.str s) => s == t
  | _ => false

/-! ### The terminal extractor (`_extract_current_terminal`) -/

/-- The `keys = ["currentTerminal", "currentTermminal"]` list of the source. -/
def terminalKeys : List String := ["currentTerminal", "currentTermminal"]

/-- The case-sensitive pass: `for k in keys: if k in obj: return obj.get(k)`. -/
def checkKeysExact (o : JObj) : Option Json :=
  terminalKeys.findSome? (fun k => if dictContains o k then dictGet? o k else none)

/-- The case-insensitive pass over `lower_map`:
`for k in [kk.lower() for kk in keys]: if k in lower_map: return lower_map[k]`. -/
def checkKeysLower (o : JObj) : Option Json :=
  (terminalKeys.map strLower).findSome?
    (fun k => if dictContains (lowerMap o) k then dictGet? (lowerMap o) k else none)

/-- The candidate list `[payload]` plus `payload.get("Data")` when that
value is a JSON object (`isinstance(data, dict)`). -/
def extractCandidates (payload : JObj) : List JObj :=
  [payload] ++ (match dictGet? payload "Data" with
    | some (Json.obj d) => [d]
    | _ => [])

/-- `_extract_current_terminal`: first candidate object that yields a value
under either key spelling, exact case first, then case-insensitively. -/
def extractCurrentTerminal (payload : JObj) : Option Json :=
  (extractCandidates payload).findSome?
    (fun o => (checkKeysExact o).or (checkKeysLower o))

/-! ### Spec-side restatement of the extraction rule (for claim C1)

The claim describes the extractor as: build the candidate list, and for each
candidate check the two key spellings with exact case, then the same two
keys case-insensitively, returning the first value found.  The functions
below follow that wording directly (the case-insensitive lookup resolves a
key collision the way a Python dict does: the last colliding key wins,
which the spec leaves open). -/

/-- Case-insensitive lookup of `k` in `o`, last colliding key winning. -/
def lookupCI (o : JObj) (k : String) : Option Json :=
  (o.reverse.find? (fun p => strLower p.1 == strLower k)).map (·.2)

/-- The extraction rule as the spec words it. -/
def extractTerminalSpec (payload : JObj) : Option Json :=
  (extractCandidates payload).findSome? (fun o =>
    match terminalKeys.findSome? (fun k => dictGet? o k) with
    | some v => some v
    | none => terminalKeys.findSome? (fun k => lookupCI o k))

/-! ### Dictionary lemmas -/

theorem dictGet?_eq_none_of_not_contains (m : JObj) (k : String)
    (h : dictContains m k = false) : dictGet? m k = none := by
  induction m with
  | nil => rfl
  | cons p rest ih =>
    simp only [dictContains, List.any_cons, Bool.or_eq_false_iff] at h
    show (List.find? (fun p => p.1 == k) (p :: rest)).map (·.2) = none
    rw [List.find?_cons, h.1]
    exact ih h.2

theorem guardedGet (o : JObj) (k : String) :
    (if dictContains o k then dictGet? o k else none) = dictGet? o k := by
  by_cases h : dictContains o k = true
  · simp [h]
  · simp only [Bool.not_eq_true] at h
    simp [h, dictGet?_eq_none_of_not_contains o k h]

theorem dictGet?_isSome_of_contains (m : JObj) (k : String)
    (h : dictContains m k = true) : (dictGet? m k).isSome = true := by
  induction m with
  | nil => simp [dictContains] at h
  | cons p rest ih =>
    by_cases hpk : (p.1 == k) = true
    · simp [dictGet?, List.find?_cons, hpk]
    · simp only [Bool.not_eq_true] at hpk
      simp only [dictContains, List.any_cons, hpk, Bool.false_or] at h
      show ((List.find? (fun p => p.1 == k) (p :: rest)).map (·.2)).isSome = true
      rw [List.find?_cons, hpk]
      exact ih h

theorem find?_map_setKey (rest : JObj) (a : String) (v : Json) (k : String)
    (hak : (a == k) = false) :
    (rest.map (fun p => if p.1 == a then (a, v) else p)).find? (fun p => p.1 == k)
      = rest.find? (fun p => p.1 == k) := by
  induction rest with
  | nil => rfl
  | cons p rest ih =>
    by_cases hpa : p.1 = a
    · have h1 : ((if p.1 == a then (a, v) else p) : String × Json) = (a, v) := by simp [hpa]
      have h2 : (p.1 == k) = false := by simp [hpa]; simpa using hak
      simp only [List.map_cons, h1, List.find?_cons, hak, h2]
      exact ih
    · have h1 : ((if p.1 == a then (a, v) else p) : String × Json) = p := by simp [hpa]
      simp only [List.map_cons, h1, List.find?_cons]
      cases hpk : (p.1 == k) with
      | true => rfl
      | false => exact ih

theorem find?_map_setKey_self (m : JObj) (a : String) (v : Json)
    (hc : dictContains m a = true) :
    (m.map (fun p => if p.1 == a then (a, v) else p)).find? (fun p => p.1 == a)
      = some (a, v) := by
  induction m with
  | nil => simp [dictContains] at hc
  | cons p rest ih =>
    by_cases hpa : (p.1 == a) = true
    · simp only [List.map_cons, hpa, if_true, List.find?_cons, beq_self_eq_true]
    · simp only [Bool.not_eq_true] at hpa
      simp only [dictContains, List.any_cons, hpa, Bool.false_or] at hc
      simp only [List.map_cons, hpa, if_false, Bool.false_eq_true, List.find?_cons, hpa]
      exact ih hc

/-- The defining equation of Python dict assignment plus lookup. -/
theorem dictGet?_dictInsert (m : JObj) (a : String) (v : Json) (k : String) :
    dictGet? (dictInsert m a v) k = if a = k then some v else dictGet? m k := by
  by_cases hc : dictContains m a = true
  · rw [dictInsert, if_pos hc]
    by_cases hak : a = k
    · subst hak
      rw [dictGet?, find?_map_setKey_self m a v hc, if_pos rfl]
      rfl
    · have hak' : (a == k) = false := by simp [hak]
      rw [dictGet?, find?_map_setKey m a v k hak', if_neg hak]
      rfl
  · have hc' : dictContains m a = false := by simpa using hc
    rw [dictInsert, if_neg (by simp [hc'])]
    rw [dictGet?, List.find?_append]
    by_cases hak : a = k
    · subst hak
      have hnone : dictGet? m a = none := dictGet?_eq_none_of_not_contains m a hc'
      have hfind : m.find? (fun p => p.1 == a) = none := by
        cases hm : m.find? (fun p => p.1 == a) with
        | none => rfl
        | some x => rw [dictGet?, hm] at hnone; simp at hnone
      simp [hfind, List.find?]
    · have hak' : (a == k) = false := by simp [hak]
      have hsingle : List.find? (fun p => p.1 == k) [(a, v)] = none := by
        simp [List.find?, hak']
      rw [hsingle, Option.or_none, if_neg hak]
      rfl

/-- What looking a key up in `lower_map` computes on the original object:
the value of the last key whose lowercase form is `k`. -/
def lookupLowerLast (o : JObj) (k : String) : Option Json :=
  (o.reverse.find? (fun p => strLower p.1 == k)).map (·.2)

theorem lookupLowerLast_cons (p : String × Json) (rest : JObj) (k : String) :
    lookupLowerLast (p :: rest) k
      = (lookupLowerLast rest k).or (if strLower p.1 = k then some p.2 else none) := by
  unfold lookupLowerLast
  rw [List.reverse_cons, List.find?_append]
  cases hfind : rest.reverse.find? (fun q => strLower q.1 == k) with
  | some x => simp
  | none =>
    by_cases h : strLower p.1 = k
    · simp [List.find?, h]
    · have h' : (strLower p.1 == k) = false := beq_eq_false_iff_ne.mpr h
      simp [List.find?, h', h]

theorem foldl_insert_lower (o : JObj) (k : String) : ∀ m : JObj,
    dictGet? (o.foldl (fun acc p => dictInsert acc (strLower p.1) p.2) m) k
      = (lookupLowerLast o k).or (dictGet? m k) := by
  induction o with
  | nil => intro m; simp [lookupLowerLast]
  | cons p rest ih =>
    intro m
    rw [List.foldl_cons, ih, dictGet?_dictInsert, lookupLowerLast_cons, Option.or_assoc]
    by_cases h : strLower p.1 = k <;> simp [h]

theorem dictGet?_lowerMap (o : JObj) (k : String) :
    dictGet? (lowerMap o) k = lookupLowerLast o k := by
  have h := foldl_insert_lower o k []
  simpa [lowerMap, dictGet?] using h

theorem lookupCI_eq_lowerLast (o : JObj) (k : String) :
    lookupCI o k = lookupLowerLast o (strLower k) := rfl

theorem checkKeysLower_eq (o : JObj) :
    checkKeysLower o = terminalKeys.findSome? (fun k => lookupCI o k) := by
  unfold checkKeysLower
  simp only [guardedGet]
  simp only [dictGet?_lowerMap]
  rfl

theorem checkKeysExact_eq (o : JObj) :
    checkKeysExact o = terminalKeys.findSome? (fun k => dictGet? o k) := by
  unfold checkKeysExact
  simp only [guardedGet]

/-- The extractor agrees with the spec-side restatement everywhere. -/
theorem extract_eq_spec (p : JObj) :
    extractCurrentTerminal p = extractTerminalSpec p := by
  unfold extractCurrentTerminal extractTerminalSpec
  congr 1
  funext o
  rw [checkKeysExact_eq, checkKeysLower_eq]
  cases terminalKeys.findSome? (fun k => dictGet? o k) <;> simp

theorem findSome?_eq_none_of_all {α β : Type} (f : α → Option β) (l : List α)
    (h : ∀ a ∈ l, f a = none) : l.findSome? f = none := by
  induction l with
  | nil => rfl
  | cons a l ih =>
    simp [List.findSome?, h a (by simp), ih (fun x hx => h x (by simp [hx]))]

theorem findSome?_cons_of_some {α β : Type} (f : α → Option β) (a : α) (l : List α)
    (b : β) (h : f a = some b) : (a :: l).findSome? f = some b := by
  simp [List.findSome?, h]

/-! ### Example payloads from the spec's testable properties -/

/-- Top-level `currentTerminal: 099-XYZ` with a nested Data `currentTerminal:
010-CLT`. -/
def exTopAndData : JObj :=
  [("currentTerminal", Json.str "099-XYZ"),
   ("Data", Json.obj [("currentTerminal", Json.str "010-CLT")])]

/-- The payload `\x7b"currentTerminal": "010-CLT"\x7d`. -/
def exTopOnly : JObj := [("currentTerminal", Json.str "010-CLT")]

/-- Nested, misspelled, wrong case: `Data.currenttermminal = 010-CLT`. -/
def exNestedMiss : JObj :=
  [("Data", Json.obj [("currenttermminal", Json.str "010-CLT")])]

/-- A null-valued top-level `currentTerminal` above a matching Data value. -/
def exNullMask : JObj :=
  [("currentTerminal", Json.null),
   ("Data", Json.obj [("currentTerminal", Json.str "010-CLT")])]

/-- C1: for every JSON payload the extractor builds the candidate list
(top-level object, then the value of `"Data"` when that value is an object)
and for each candidate checks `currentTerminal` then `currentTermminal`
exact-case first, then the same two keys case-insensitively, returning the
first value found (absent if none): so the top-level `099-XYZ` wins over the
nested `010-CLT` (no match for target `010-CLT`), while a nested, misspelled,
wrong-case key still matches `010-CLT`. -/
theorem c1_extractor_candidate_and_key_order :
    (∀ p : JObj, extractCurrentTerminal p = extractTerminalSpec p)
    ∧ (∀ p : JObj, (∀ o ∈ extractCandidates p,
          checkKeysExact o = none ∧ checkKeysLower o = none) →
        extractCurrentTerminal p = none)
    ∧ extractCurrentTerminal exTopAndData = some (Json.str "099-XYZ")
    ∧ pyEq (extractCurrentTerminal exTopAndData) "010-CLT" = false
    ∧ extractCurrentTerminal exTopOnly = some (Json.str "010-CLT")
    ∧ pyEq (extractCurrentTerminal exTopOnly) "010-CLT" = true
    ∧ extractCurrentTerminal exNestedMiss = some (Json.str "010-CLT")
    ∧ pyEq (extractCurrentTerminal exNestedMiss) "010-CLT" = true := by
  refine ⟨extract_eq_spec, ?_, rfl, rfl, rfl, rfl, rfl, rfl⟩
  intro p h
  unfold extractCurrentTerminal
  exact findSome?_eq_none_of_all _ _ (fun o ho => by
    rw [(h o ho).1, (h o ho).2]; rfl)

/-- C10: a payload whose top level contains the exact key `currentTerminal`
or `currentTermminal` is resolved by the top-level exact-case pass alone
(the nested `"Data"` object is never consulted), even when the value is null
or a non-string; such a value never equals the target terminal string, so a
null-valued top-level key masks a matching terminal inside `"Data"` and the
record is excluded. -/
theorem c10_toplevel_key_masks_data (p : JObj)
    (h : dictContains p "currentTerminal" = true
        ∨ dictContains p "currentTermminal" = true) :
    extractCurrentTerminal p = checkKeysExact p
    ∧ (checkKeysExact p).isSome = true
    ∧ (∀ (v : Json) (t : String), (∀ s, v ≠ Json.str s) → pyEq (some v) t = false)
    ∧ extractCurrentTerminal exNullMask = some Json.null
    ∧ pyEq (extractCurrentTerminal exNullMask) "010-CLT" = false := by
  have hex : (checkKeysExact p).isSome = true := by
    rw [checkKeysExact_eq]
    rcases h with h | h
    · obtain ⟨v, hv⟩ := Option.isSome_iff_exists.mp
        (dictGet?_isSome_of_contains p "currentTerminal" h)
      show (List.findSome? (fun k => dictGet? p k)
        ["currentTerminal", "currentTermminal"]).isSome = true
      simp [List.findSome?, hv]
    · obtain ⟨v, hv⟩ := Option.isSome_iff_exists.mp
        (dictGet?_isSome_of_contains p "currentTermminal" h)
      show (List.findSome? (fun k => dictGet? p k)
        ["currentTerminal", "currentTermminal"]).isSome = true
      cases h1 : dictGet? p "currentTerminal" <;> simp [List.findSome?, h1, hv]
  obtain ⟨v, hv⟩ := Option.isSome_iff_exists.mp hex
  have hfp : (checkKeysExact p).or (checkKeysLower p) = some v := by rw [hv]; rfl
  have hcand : extractCandidates p
      = p :: (match dictGet? p "Data" with
        | some (Json.obj d) => [d]
        | _ => []) := rfl
  refine ⟨?_, hex, ?_, rfl, rfl⟩
  · unfold extractCurrentTerminal
    rw [hcand, hv]
    exact findSome?_cons_of_some
      (fun o => (checkKeysExact o).or (checkKeysLower o)) p _ v hfp
  · intro v t hv
    cases v with
    | str s => exact absurd rfl (hv s)
    | null => rfl
    | bool b => rfl
    | num n => rfl
    | arr xs => rfl
    | obj fields => rfl

/-- Witness for C10 at the concrete masking payload. -/
theorem c10_witness :
    extractCurrentTerminal exNullMask = checkKeysExact exNullMask
    ∧ (checkKeysExact exNullMask).isSome = true
    ∧ (∀ (v : Json) (t : String), (∀ s, v ≠ Json.str s) → pyEq (some v) t = false)
    ∧ extractCurrentTerminal exNullMask = some Json.null
    ∧ pyEq (extractCurrentTerminal exNullMask) "010-CLT" = false :=
  c10_toplevel_key_masks_data exNullMask (Or.inl (by decide))

/-! ### Calendar dates (`datetime.date` as used by `dateutil` and `sorted`) -/

/-- A `datetime.date`; `dateutil`/`datetime` only admit years 1..9999,
months 1..12 and days 1..days-in-month. -/
structure Date where
  year : Nat
  month : Nat
  day : Nat
deriving DecidableEq

/-- Python `date` comparison `a < b` (lexicographic on year, month, day). -/
def Date.ltb (a b : Date) : Bool :=
  a.year < b.year
    || (a.year == b.year
        && (a.month < b.month || (a.month == b.month && a.day < b.day)))

/-- Python `date` comparison `a <= b`. -/
def Date.leb (a b : Date) : Bool := Date.ltb a b || a == b

def pad2 (n : Nat) : String := if n < 10 then "0" ++ toString n else toString n

def pad4 (n : Nat) : String :=
  if n < 10 then "000" ++ toString n
  else if n < 100 then "00" ++ toString n
  else if n < 1000 then "0" ++ toString n
  else toString n

/-- Python `date.isoformat()`: zero-padded `YYYY-MM-DD`. -/
def Date.iso (d : Date) : String :=
  pad4 d.year ++ "-" ++ pad2 d.month ++ "-" ++ pad2 d.day

def isLeapYear (y : Nat) : Bool := (y % 4 == 0 && y % 100 != 0) || y % 400 == 0

def daysInMonth (y m : Nat) : Nat :=
  if m == 2 then (if isLeapYear y then 29 else 28)
  else if m == 4 || m == 6 || m == 9 || m == 11 then 30
  else 31

/-- The year/month/day triples that `datetime.date` accepts. -/
def validYMD (y m d : Nat) : Bool :=
  1 ≤ y && y ≤ 9999 && 1 ≤ m && m ≤ 12 && 1 ≤ d && d ≤ daysInMonth y m

/-! ### The date-directory name gate (`_DATE_DIR_RE` and `_parse_date_dir`) -/

/-- Decimal value of a digit run (how `int(...)`/dateutil read a number). -/
def natOfDigits (l : List Char) : Nat :=
  l.foldl (fun n c => n * 10 + (c.toNat - '0'.toNat)) 0

/-- The anchored regex `\d\x7b4\x7d-\d\x7b1,2\x7d-\d\x7b1,2\x7d` on character
data, returning the three digit runs on a match (`\d` modelled as an ASCII
digit — the alphabet of the store's path names). -/
def dateReParts? (l : List Char) : Option (List Char × List Char × List Char) :=
  let d1 := l.takeWhile Char.isDigit
  let r1 := l.dropWhile Char.isDigit
  if d1.length == 4 then
    match r1 with
    | '-' :: r2 =>
      let d2 := r2.takeWhile Char.isDigit
      let r3 := r2.dropWhile Char.isDigit
      if d2.length == 1 || d2.length == 2 then
        match r3 with
        | '-' :: r4 =>
          let d3 := r4.takeWhile Char.isDigit
          let r5 := r4.dropWhile Char.isDigit
          if (d3.length == 1 || d3.length == 2) && r5.isEmpty then some (d1, d2, d3)
          else none
        | _ => none
      else none
    | _ => none
  else none

/-- `_DATE_DIR_RE.match(name)` viewed as a Bool. -/
def matchesDateDirRe (s : String) : Bool := (dateReParts? s.data).isSome

/-- `_parse_date_dir`: the regex gate, then `dateparser.parse(name).date()`,
which on a `YYYY-M-D` shaped string interprets the three components as
year, month and day and raises (caught, giving `None`) when they do not
form a real `datetime.date`. -/
def parseDateDir (s : String) : Option Date :=
  match dateReParts? s.data with
  | none => none
  | some (d1, d2, d3) =>
    let y := natOfDigits d1
    let m := natOfDigits d2
    let d := natOfDigits d3
    if validYMD y m d then some ⟨y, m, d⟩ else none

theorem all_takeWhile {α : Type} (p : α → Bool) (l : List α) :
    (l.takeWhile p).all p = true := by
  induction l with
  | nil => rfl
  | cons a l ih =>
    cases hp : p a with
    | true => simp [List.takeWhile, hp, ih]
    | false => simp [List.takeWhile, hp]

/-- Soundness of the regex matcher: a match decomposes the input into the
three digit runs separated by hyphens, with the regex's length bounds. -/
theorem dateReParts?_sound (l : List Char) (d1 d2 d3 : List Char)
    (h : dateReParts? l = some (d1, d2, d3)) :
    l = d1 ++ '-' :: (d2 ++ '-' :: d3)
    ∧ d1.length = 4 ∧ d1.all Char.isDigit = true
    ∧ (d2.length = 1 ∨ d2.length = 2) ∧ d2.all Char.isDigit = true
    ∧ (d3.length = 1 ∨ d3.length = 2) ∧ d3.all Char.isDigit = true := by
  simp only [dateReParts?] at h
  split at h
  case isTrue h4 =>
    split at h
    case h_1 r1 r2 heq1 =>
      split at h
      case isTrue h2 =>
        split at h
        case h_1 r3 r4 heq2 =>
          split at h
          case isTrue h3 =>
            injection h with hp'
            simp only [Prod.mk.injEq] at hp'
            obtain ⟨hd1, hd2, hd3⟩ := hp'
            subst hd1 hd2 hd3
            simp only [Bool.and_eq_true, List.isEmpty_iff] at h3
            have e4 : r4 = r4.takeWhile Char.isDigit := by
              conv_lhs => rw [← List.takeWhile_append_dropWhile Char.isDigit r4]
              rw [h3.2, List.append_nil]
            have e2 : r2 = r2.takeWhile Char.isDigit ++ '-' :: r4 := by
              conv_lhs => rw [← List.takeWhile_append_dropWhile Char.isDigit r2]
              rw [heq2]
            have el : l = l.takeWhile Char.isDigit ++ '-' :: r2 := by
              conv_lhs => rw [← List.takeWhile_append_dropWhile Char.isDigit l]
              rw [heq1]
            refine ⟨?_, by simpa using h4, all_takeWhile _ _,
              by simpa using h2, all_takeWhile _ _,
              by simpa using h3.1, all_takeWhile _ _⟩
            conv_lhs => rw [el, e2, e4]
          case isFalse => exact absurd h (by simp)
        case h_2 => exact absurd h (by simp)
      case isFalse => exact absurd h (by simp)
    case h_2 => exact absurd h (by simp)
  case isFalse => exact absurd h (by simp)

/-- C3: a directory name matching `\d\x7b4\x7d-\d\x7b1,2\x7d-\d\x7b1,2\x7d`
parses to the calendar date whose year/month/day are the three numeric
components (when they form a real date — otherwise parsing fails and the
entry is silently skipped), and a non-matching name yields nothing. -/
theorem c3_date_dir_parse :
    (∀ s : String, matchesDateDirRe s = false → parseDateDir s = none)
    ∧ (∀ (s : String) (dt : Date), parseDateDir s = some dt →
        matchesDateDirRe s = true
        ∧ ∃ g1 g2 g3 : List Char,
            s.data = g1 ++ '-' :: (g2 ++ '-' :: g3)
            ∧ g1.length = 4 ∧ g1.all Char.isDigit = true
            ∧ (g2.length = 1 ∨ g2.length = 2) ∧ g2.all Char.isDigit = true
            ∧ (g3.length = 1 ∨ g3.length = 2) ∧ g3.all Char.isDigit = true
            ∧ dt = ⟨natOfDigits g1, natOfDigits g2, natOfDigits g3⟩)
    ∧ parseDateDir "2025-8-11" = some ⟨2025, 8, 11⟩
    ∧ parseDateDir "2025-08-01" = some ⟨2025, 8, 1⟩
    ∧ parseDateDir "2025-13-45" = none
    ∧ parseDateDir "2025-2-30" = none
    ∧ parseDateDir "not-a-date" = none := by
  refine ⟨?_, ?_, by decide, by decide, by decide, by decide, by decide⟩
  · intro s hm
    unfold matchesDateDirRe at hm
    unfold parseDateDir
    cases hp : dateReParts? s.data with
    | none => rfl
    | some parts => rw [hp] at hm; simp at hm
  · intro s dt h
    unfold parseDateDir at h
    cases hp : dateReParts? s.data with
    | none => rw [hp] at h; exact absurd h (by simp)
    | some parts =>
      obtain ⟨g1, g2, g3⟩ := parts
      rw [hp] at h
      have hdec := dateReParts?_sound s.data g1 g2 g3 hp
      have hdt : dt = ⟨natOfDigits g1, natOfDigits g2, natOfDigits g3⟩ := by
        by_cases hv : validYMD (natOfDigits g1) (natOfDigits g2) (natOfDigits g3) = true
        · simp only [hv, if_true] at h
          exact (Option.some_injective _ h).symm
        · simp only [Bool.not_eq_true] at hv
          simp [hv] at h
      refine ⟨by simp [matchesDateDirRe, hp], g1, g2, g3, hdec.1, hdec.2.1,
        hdec.2.2.1, hdec.2.2.2.1, hdec.2.2.2.2.1, hdec.2.2.2.2.2.1,
        hdec.2.2.2.2.2.2, hdt⟩

/-- Witness for C3 at a non-matching and a matching concrete name. -/
theorem c3_witness :
    parseDateDir "PRO123" = none
    ∧ (matchesDateDirRe "2025-8-11" = true
        ∧ ∃ g1 g2 g3 : List Char,
            "2025-8-11".data = g1 ++ '-' :: (g2 ++ '-' :: g3)
            ∧ g1.length = 4 ∧ g1.all Char.isDigit = true
            ∧ (g2.length = 1 ∨ g2.length = 2) ∧ g2.all Char.isDigit = true
            ∧ (g3.length = 1 ∨ g3.length = 2) ∧ g3.all Char.isDigit = true
            ∧ (⟨2025, 8, 11⟩ : Date)
                = ⟨natOfDigits g1, natOfDigits g2, natOfDigits g3⟩) :=
  ⟨c3_date_dir_parse.1 "PRO123" (by decide),
   c3_date_dir_parse.2.1 "2025-8-11" ⟨2025, 8, 11⟩ (by decide)⟩

/-! ### Store listings and the capped listing loops -/

/-- One entry of an `fs.ls(..., detail=True)` listing: its full path name
and whether its `type` tag is `"directory"`. -/
structure LsEntry where
  name : String
  isDir : Bool
deriving DecidableEq

/-- A JSON object in the store: its listed path name, whether its `type`
tag is `"file"`, and the payload `json.load` yields on opening it (`none`
when opening or parsing raises). -/
structure FileEntry where
  name : String
  isFile : Bool
  content : Option JObj

/-- A child of a date directory: its path segment, whether it is a
directory (a PRO folder), and, if so, its file listing. -/
structure ProEntry where
  seg : String
  isDir : Bool
  files : List FileEntry

/-- The Python test `limit and limit > 0` (`None` and `0` are falsy; a
negative int is truthy but fails `> 0`). -/
def capActive : Option Int → Bool
  | none => false
  | some n => !(n == 0) && decide (0 < n)

/-- The loop guard `limit and limit > 0 and len(acc) >= limit`. -/
def capReached (lim : Option Int) (len : Nat) : Bool :=
  match lim with
  | none => false
  | some n => !(n == 0) && decide (0 < n) && decide (n ≤ (len : Int))

/-- The shared shape of `_get_pro_dirs` and `_get_json_files`: walk the
listing, keep entries passing the filter, and stop as soon as the cap is
reached. -/
def capFilterLoop {α : Type} (keep : α → Bool) :
    List α → Option Int → List α → List α
  | [], _, acc => acc
  | x :: rest, lim, acc =>
    if keep x then
      let acc' := acc ++ [x]
      if capReached lim acc'.length then acc'
      else capFilterLoop keep rest lim acc'
    else capFilterLoop keep rest lim acc

/-- `_get_pro_dirs`: names of immediate directory-type entries, capped. -/
def _get_pro_dirs (entries : List LsEntry) (lim : Option Int) : List String :=
  (capFilterLoop (fun e => e.isDir) entries lim []).map (fun e => e.name)

/-- The filter of `_get_json_files`:
`entry.get("type") == "file" and entry["name"].lower().endswith(".json")`. -/
def jsonKeep (f : FileEntry) : Bool := f.isFile && lowerEndsWithJson f.name

/-- `_get_json_files`, kept at the entry level so the payload reached by
`fs.open(json_path)` travels with the listed name. -/
def _get_json_files (files : List FileEntry) (lim : Option Int) : List FileEntry :=
  capFilterLoop jsonKeep files lim []

theorem capFilterLoop_no_cap {α : Type} (keep : α → Bool) (lim : Option Int)
    (hcap : capActive lim = false) :
    ∀ (l acc : List α), capFilterLoop keep l lim acc = acc ++ l.filter keep := by
  have hreach : ∀ len, capReached lim len = false := by
    intro len
    cases lim with
    | none => rfl
    | some n =>
      simp only [capActive, Bool.and_eq_false_iff] at hcap
      simp only [capReached, Bool.and_eq_false_iff]
      rcases hcap with h | h
      · exact Or.inl (Or.inl h)
      · exact Or.inl (Or.inr h)
  intro l
  induction l with
  | nil => intro acc; simp [capFilterLoop]
  | cons x rest ih =>
    intro acc
    cases hk : keep x with
    | true => simp [capFilterLoop, hk, hreach, ih, List.filter_cons]
    | false => simp [capFilterLoop, hk, ih, List.filter_cons]

theorem capFilterLoop_cap {α : Type} (keep : α → Bool) (n : Int) (hn : 0 < n) :
    ∀ (l acc : List α), (acc.length : Int) < n →
      capFilterLoop keep l (some n) acc
        = acc ++ (l.filter keep).take (n.toNat - acc.length) := by
  have hne : (!(n == 0)) = true := by
    simp only [Bool.not_eq_eq_eq_not, Bool.not_true, beq_eq_false_iff_ne]
    omega
  intro l
  induction l with
  | nil => intro acc hacc; simp [capFilterLoop]
  | cons x rest ih =>
    intro acc hacc
    cases hk : keep x with
    | false => simp [capFilterLoop, hk, ih acc hacc, List.filter_cons]
    | true =>
      have htake : n.toNat - acc.length = (n.toNat - (acc.length + 1)) + 1 := by omega
      by_cases hr : n ≤ ((acc.length + 1 : Nat) : Int)
      · have hreach : capReached (some n) (acc ++ [x]).length = true := by
          simp [capReached, hne, hn, List.length_append]
          omega
        have hstop : n.toNat - (acc.length + 1) = 0 := by omega
        simp only [capFilterLoop, hk, if_true, hreach, List.filter_cons, hk]
        rw [htake, hstop]
        simp
      · have hreach : capReached (some n) (acc ++ [x]).length = false := by
          simp [capReached, List.length_append]
          omega
        have hlt : (((acc ++ [x]).length : Nat) : Int) < n := by
          simp [List.length_append]
          omega
        simp only [capFilterLoop, hk, if_true, hreach, if_false, Bool.false_eq_true,
          ih (acc ++ [x]) hlt, List.filter_cons, hk]
        rw [htake]
        simp [List.length_append, List.take_succ_cons]

/-- C4: with a positive cap `n` the PRO lister returns exactly the first
`min n total` directory-type entries in listing order; a cap of zero or
`None` returns all directory-type entries. -/
theorem c4_pro_dir_cap (entries : List LsEntry) (n : Int) (h : 0 < n) :
    _get_pro_dirs entries (some n)
      = ((entries.filter (fun e => e.isDir)).map (fun e => e.name)).take n.toNat
    ∧ (_get_pro_dirs entries (some n)).length
      = min n.toNat (entries.filter (fun e => e.isDir)).length
    ∧ _get_pro_dirs entries none = (entries.filter (fun e => e.isDir)).map (fun e => e.name)
    ∧ _get_pro_dirs entries (some 0)
      = (entries.filter (fun e => e.isDir)).map (fun e => e.name) := by
  have hpos : _get_pro_dirs entries (some n)
      = ((entries.filter (fun e => e.isDir)).map (fun e => e.name)).take n.toNat := by
    unfold _get_pro_dirs
    rw [capFilterLoop_cap (fun e => e.isDir) n h entries [] (by simpa using h)]
    simp [List.map_take]
  refine ⟨hpos, ?_, ?_, ?_⟩
  · rw [hpos, List.length_take, List.length_map]
  · unfold _get_pro_dirs
    rw [capFilterLoop_no_cap (fun e => e.isDir) none rfl entries []]
    simp
  · unfold _get_pro_dirs
    rw [capFilterLoop_no_cap (fun e => e.isDir) (some 0) rfl entries []]
    simp

/-- Witness for C4: a cap of 2 over a listing holding 5 directories (and
one file entry) yields exactly the first 2, in listing order. -/
theorem c4_witness :
    0 < (2 : Int)
    ∧ _get_pro_dirs
        [⟨"c/d/P1", true⟩, ⟨"c/d/f.json", false⟩, ⟨"c/d/P2", true⟩,
         ⟨"c/d/P3", true⟩, ⟨"c/d/P4", true⟩, ⟨"c/d/P5", true⟩] (some 2)
      = ["c/d/P1", "c/d/P2"] := by
  refine ⟨by decide, ?_⟩
  have h := (c4_pro_dir_cap
    [⟨"c/d/P1", true⟩, ⟨"c/d/f.json", false⟩, ⟨"c/d/P2", true⟩,
     ⟨"c/d/P3", true⟩, ⟨"c/d/P4", true⟩, ⟨"c/d/P5", true⟩] 2 (by decide)).1
  rw [h]
  decide

/-! ### The SDK-optimized PRO listing (`_get_pro_dirs_optimized`) -/

/-- `_abfs_uri(container, path)` for a non-empty relative path. -/
def mkAbfsUri (container path : String) : String :=
  "abfs://" ++ container ++ "/" ++ path

/-- The `fs.ls` view of a date directory's children (per the source, entry
names are full `abfs` paths). -/
def lsProEntries (container datePath : String) (pros : List ProEntry) : List LsEntry :=
  pros.map (fun p => ⟨mkAbfsUri container (datePath ++ "/" ++ p.seg), p.isDir⟩)

/-- The item names yielded by
`walk_blobs(name_starts_with=f"\x7bdate_path\x7d/", delimiter="/")`: one
item per immediate child, directory-like prefixes carrying a trailing
slash (every yielded item has a `name`, so the `hasattr` test holds). -/
def walkBlobNames (datePath : String) (pros : List ProEntry) : List String :=
  pros.map (fun p => (datePath ++ "/" ++ p.seg) ++ (if p.isDir then "/" else ""))

/-- The SDK collection loop of `_get_pro_dirs_optimized`: keep items ending
in `/`, build `f"abfs://\x7bcontainer\x7d/\x7bname.rstrip('/')\x7d"`, stop
at the cap. -/
def sdkLoop (container : String) (n : Int) : List String → List String → List String
  | [], acc => acc
  | item :: rest, acc =>
    if endsWithSlash item then
      let acc' := acc ++ ["abfs://" ++ container ++ "/" ++ rstripSlash item]
      if decide (n ≤ (acc'.length : Int)) then acc'
      else sdkLoop container n rest acc'
    else sdkLoop container n rest acc

/-- `_get_pro_dirs_optimized`, the environment made explicit: `sdkAvailable`
models `AZURE_SDK_AVAILABLE`, `sdkFails` models any raise inside the SDK
path (caught by the blanket `except`); the Bool output records whether the
fallback warning was logged. -/
def _get_pro_dirs_optimized (sdkAvailable sdkFails : Bool)
    (container datePath : String) (pros : List ProEntry) (lim : Option Int) :
    List String × Bool :=
  if !sdkAvailable || !capActive lim then
    (_get_pro_dirs (lsProEntries container datePath pros) lim, false)
  else if sdkFails then
    (_get_pro_dirs (lsProEntries container datePath pros) lim, true)
  else
    match lim with
    | some n => (sdkLoop container n (walkBlobNames datePath pros) [], false)
    | none => (_get_pro_dirs (lsProEntries container datePath pros) none, false)

/-- Store path segments are non-empty and slash-free. -/
def WfSegs (pros : List ProEntry) : Prop :=
  ∀ p ∈ pros, p.seg.data ≠ [] ∧ '/' ∉ p.seg.data

theorem endsWithSlash_dir (a : String) : endsWithSlash (a ++ "/") = true := by
  unfold endsWithSlash
  rw [String.data_append]
  show ((a.data ++ ['/']).getLast? == some '/') = true
  rw [List.getLast?_concat]
  rfl

theorem endsWithSlash_file (a seg : String) (hne : seg.data ≠ [])
    (hns : '/' ∉ seg.data) : endsWithSlash ((a ++ seg) ++ "") = false := by
  unfold endsWithSlash
  rw [String.data_append, String.data_append]
  show (((a.data ++ seg.data) ++ []).getLast? == some '/') = false
  rw [List.append_nil, List.getLast?_append]
  cases hrev : seg.data.reverse with
  | nil => exact absurd (by simpa using congrArg List.reverse hrev) hne
  | cons c cs =>
    have hlast : seg.data.getLast? = some c := by
      rw [← List.head?_reverse, hrev]
      rfl
    have hc : c ∈ seg.data :=
      List.mem_reverse.mp (by rw [hrev]; exact List.mem_cons_self c cs)
    have hcs : ¬ c = '/' := fun hh => hns (hh ▸ hc)
    rw [hlast]
    simp [Option.or, hcs]

theorem rstripSlash_strip (a seg : String) (hne : seg.data ≠ [])
    (hns : '/' ∉ seg.data) : rstripSlash ((a ++ seg) ++ "/") = a ++ seg := by
  have hdata : ((a ++ seg) ++ "/").data = (a.data ++ seg.data) ++ ['/'] := by
    rw [String.data_append, String.data_append]
  cases hrev : seg.data.reverse with
  | nil => exact absurd (by simpa using congrArg List.reverse hrev) hne
  | cons c cs =>
    have hc : c ∈ seg.data :=
      List.mem_reverse.mp (by rw [hrev]; exact List.mem_cons_self c cs)
    have hcslash : (c == '/') = false := by
      have hcs : ¬ c = '/' := fun hh => hns (hh ▸ hc)
      simpa using hcs
    have hrevfull : ((a.data ++ seg.data) ++ ['/']).reverse
        = '/' :: (c :: (cs ++ a.data.reverse)) := by
      rw [List.reverse_append, List.reverse_append, hrev]
      rfl
    unfold rstripSlash
    rw [hdata, hrevfull, List.dropWhile_cons]
    simp only [beq_self_eq_true, if_true]
    rw [List.dropWhile_cons, hcslash]
    simp only [Bool.false_eq_true, if_false]
    have hfin : (c :: (cs ++ a.data.reverse)).reverse = (a ++ seg).data := by
      have h2 : (c :: (cs ++ a.data.reverse)) = (c :: cs) ++ a.data.reverse := rfl
      rw [h2, List.reverse_append, ← hrev, List.reverse_reverse,
        List.reverse_reverse, ← String.data_append]
    rw [hfin]

theorem sdkLoop_eq_capFilter (container datePath : String) (n : Int) :
    ∀ (pros : List ProEntry), WfSegs pros → ∀ (acc : List String),
      (acc.length : Int) < n →
      sdkLoop container n (walkBlobNames datePath pros) acc
        = acc ++ ((pros.filter (fun p => p.isDir)).map
            (fun p => mkAbfsUri container (datePath ++ "/" ++ p.seg))).take
              (n.toNat - acc.length) := by
  intro pros
  induction pros with
  | nil => intro hwf acc hacc; simp [walkBlobNames, sdkLoop]
  | cons p rest ih =>
    intro hwf acc hacc
    have hp := hwf p (List.mem_cons_self p rest)
    have hrest : WfSegs rest := fun q hq => hwf q (List.mem_cons_of_mem p hq)
    cases hd : p.isDir with
    | false =>
      have hslash : endsWithSlash ((datePath ++ "/" ++ p.seg) ++ "") = false :=
        endsWithSlash_file (datePath ++ "/") p.seg hp.1 hp.2
      have hw : walkBlobNames datePath (p :: rest)
          = ((datePath ++ "/" ++ p.seg) ++ "") :: walkBlobNames datePath rest := by
        simp [walkBlobNames, hd]
      rw [hw, sdkLoop, hslash]
      simp only [Bool.false_eq_true, if_false, List.filter_cons, hd]
      exact ih hrest acc hacc
    | true =>
      have hslash : endsWithSlash ((datePath ++ "/" ++ p.seg) ++ "/") = true :=
        endsWithSlash_dir (datePath ++ "/" ++ p.seg)
      have hstrip : rstripSlash ((datePath ++ "/" ++ p.seg) ++ "/")
          = datePath ++ "/" ++ p.seg :=
        rstripSlash_strip (datePath ++ "/") p.seg hp.1 hp.2
      have hw : walkBlobNames datePath (p :: rest)
          = ((datePath ++ "/" ++ p.seg) ++ "/") :: walkBlobNames datePath rest := by
        simp [walkBlobNames, hd]
      rw [hw, sdkLoop, hslash]
      simp only [if_true, hstrip]
      have htake : n.toNat - acc.length = (n.toNat - (acc.length + 1)) + 1 := by
        omega
      set uri := "abfs://" ++ container ++ "/" ++ (datePath ++ "/" ++ p.seg) with huri
      have hfull : uri = mkAbfsUri container (datePath ++ "/" ++ p.seg) := rfl
      by_cases hr : n ≤ ((acc.length + 1 : Nat) : Int)
      · have hrb : decide (n ≤ (((acc ++ [uri]).length : Nat) : Int)) = true := by
          simp only [List.length_append, List.length_cons, List.length_nil]
          have : ((acc.length + 1 : Nat) : Int) = (acc.length : Int) + 1 := by
            push_cast; ring
          simp only [decide_eq_true_eq]
          omega
        have hstop : n.toNat - (acc.length + 1) = 0 := by omega
        simp only [hrb, if_true, List.filter_cons, hd, List.map_cons, htake, hstop,
          List.take_succ_cons, List.take_zero]
        rw [hfull]
      · have hrb : decide (n ≤ (((acc ++ [uri]).length : Nat) : Int)) = false := by
          simp only [List.length_append, List.length_cons, List.length_nil,
            decide_eq_false_iff_not]
          push_cast
          push_cast at hr
          omega
        have hlt : (((acc ++ [uri]).length : Nat) : Int) < n := by
          simp only [List.length_append, List.length_cons, List.length_nil]
          push_cast
          push_cast at hr
          omega
        rw [hrb]
        simp only [Bool.false_eq_true, if_false]
        rw [ih hrest (acc ++ [uri]) hlt]
        simp only [List.filter_cons, hd, List.map_cons, htake, List.take_succ_cons,
          List.length_append, List.length_cons, List.length_nil]
        rw [hfull, List.append_assoc]
        rfl

/-- C9: for every store state, date path and cap, the SDK prefix+delimiter
listing strategy returns the same PRO-directory list as the generic
hierarchical listing, and a failure of the optimized path is non-fatal: the
warning is logged and the generic listing result is returned instead. -/
theorem c9_optimized_interchangeable (container datePath : String)
    (pros : List ProEntry) (lim : Option Int) (sdkAvailable sdkFails : Bool)
    (hwf : WfSegs pros) :
    (_get_pro_dirs_optimized sdkAvailable sdkFails container datePath pros lim).1
      = _get_pro_dirs (lsProEntries container datePath pros) lim
    ∧ (sdkAvailable = true → capActive lim = true → sdkFails = true →
        (_get_pro_dirs_optimized sdkAvailable sdkFails container datePath pros
          lim).2 = true) := by
  constructor
  · unfold _get_pro_dirs_optimized
    by_cases hsdk : (!sdkAvailable || !capActive lim) = true
    · rw [if_pos hsdk]
    · rw [if_neg hsdk]
      by_cases hf : sdkFails = true
      · rw [if_pos hf]
      · rw [if_neg hf]
        simp only [Bool.or_eq_true, Bool.not_eq_true', Bool.not_eq_true] at hsdk
        push_neg at hsdk
        cases lim with
        | none => exact absurd rfl hsdk.2
        | some n =>
          have hcap : capActive (some n) = true := by
            cases hc : capActive (some n) with
            | true => rfl
            | false => exact absurd hc hsdk.2
          have hn : 0 < n := by
            simp only [capActive, Bool.and_eq_true, decide_eq_true_eq] at hcap
            exact hcap.2
          show sdkLoop container n (walkBlobNames datePath pros) [] = _
          rw [sdkLoop_eq_capFilter container datePath n pros hwf []
            (by simpa using hn)]
          unfold _get_pro_dirs
          rw [capFilterLoop_cap (fun e => e.isDir) n hn
            (lsProEntries container datePath pros) [] (by simpa using hn)]
          simp only [List.nil_append, List.length_nil, Nat.sub_zero]
          unfold lsProEntries
          rw [List.filter_map, List.map_take, List.map_map]
          rfl
  · intro ha hcap hff
    simp [_get_pro_dirs_optimized, ha, hcap, hff]

/-- Witness for C9 with a concrete store state, cap 2, SDK path taken. -/
theorem c9_witness :
    (_get_pro_dirs_optimized true false "shipmentsestesprod02" "2025-8-11"
        [⟨"PRO1", true, []⟩, ⟨"f1.json", false, []⟩, ⟨"PRO2", true, []⟩,
         ⟨"PRO3", true, []⟩] (some 2)).1
      = _get_pro_dirs (lsProEntries "shipmentsestesprod02" "2025-8-11"
          [⟨"PRO1", true, []⟩, ⟨"f1.json", false, []⟩, ⟨"PRO2", true, []⟩,
           ⟨"PRO3", true, []⟩]) (some 2)
    ∧ (true = true → capActive (some 2) = true → false = true →
        (_get_pro_dirs_optimized true false "shipmentsestesprod02" "2025-8-11"
          [⟨"PRO1", true, []⟩, ⟨"f1.json", false, []⟩, ⟨"PRO2", true, []⟩,
           ⟨"PRO3", true, []⟩] (some 2)).2 = true) :=
  c9_optimized_interchangeable "shipmentsestesprod02" "2025-8-11"
    [⟨"PRO1", true, []⟩, ⟨"f1.json", false, []⟩, ⟨"PRO2", true, []⟩,
     ⟨"PRO3", true, []⟩] (some 2) true false (by unfold WfSegs; decide)

/-! ### Flattening (`_normalize` via `pandas.json_normalize(..., sep=".")`) -/

def joinKey (pre k : String) : String := if pre = "" then k else pre ++ "." ++ k

/-- `json_normalize`: nested objects are expanded in place with dot-joined
keys; every other value (lists included) is kept as a leaf. -/
def normalizeFields (pre : String) : JObj → JObj
  | [] => []
  | (k, Json.obj fields) :: rest =>
      normalizeFields (joinKey pre k) fields ++ normalizeFields pre rest
  | (k, v) :: rest => (joinKey pre k, v) :: normalizeFields pre rest

def _normalize (payload : JObj) : JObj := normalizeFields "" payload

/-- The record construction of `collect_events`: normalize, then assign the
three provenance fields (dict assignment after normalization, so
payload-derived keys of the same name are overwritten). -/
def mkRow (payload : JObj) (dirDate : Date) (proUri : String)
    (jsonPath : String) : JObj :=
  dictInsert (dictInsert (dictInsert (_normalize payload)
    "_file_date" (Json.str dirDate.iso))
    "_pro_folder" (Json.str (lastSeg proUri)))
    "_source_path" (Json.str jsonPath)

/-! ### The store and the traversal of `collect_events` -/

/-- One entry of the root listing with (when a directory) its children. -/
structure DateEntry where
  name : String
  isDir : Bool
  pros : List ProEntry

abbrev Store := List DateEntry

/-- `_iter_date_dirs`: directory-type entries of the root listing whose
trailing path segment parses as a date. -/
def iterDateDirs (store : Store) : List (DateEntry × Date) :=
  store.filterMap (fun e =>
    if e.isDir then (parseDateDir (lastSeg e.name)).map (fun d => (e, d))
    else none)

/-- The sort key `lambda x: x[1]` of the source's `sorted(...)`. -/
def dateKeyLE (a b : DateEntry × Date) : Prop := Date.leb a.2 b.2 = true

instance : DecidableRel dateKeyLE := fun a b =>
  inferInstanceAs (Decidable (Date.leb a.2 b.2 = true))

instance : IsTotal (DateEntry × Date) dateKeyLE := ⟨by
  intro a b
  unfold dateKeyLE Date.leb Date.ltb
  rcases a with ⟨ea, ⟨y1, m1, d1⟩⟩
  rcases b with ⟨eb, ⟨y2, m2, d2⟩⟩
  simp only [Bool.or_eq_true, Bool.and_eq_true, decide_eq_true_eq, beq_iff_eq,
    Date.mk.injEq]
  omega⟩

instance : IsTrans (DateEntry × Date) dateKeyLE := ⟨by
  intro a b c
  unfold dateKeyLE Date.leb Date.ltb
  rcases a with ⟨ea, ⟨y1, m1, d1⟩⟩
  rcases b with ⟨eb, ⟨y2, m2, d2⟩⟩
  rcases c with ⟨ec, ⟨y3, m3, d3⟩⟩
  simp only [Bool.or_eq_true, Bool.and_eq_true, decide_eq_true_eq, beq_iff_eq,
    Date.mk.injEq]
  omega⟩

/-- `sorted(_iter_date_dirs(...), key=lambda x: x[1])`: Python's sort is
stable, and a stable sort by a total preorder is unique, so insertion sort
models it exactly. -/
def sortedDateDirs (store : Store) : List (DateEntry × Date) :=
  List.insertionSort dateKeyLE (iterDateDirs store)

/-- The structural PRO selection of the traversal: by
`c9_optimized_interchangeable`-style reasoning this is, entry for entry,
the list whose `mkAbfsUri` names `_get_pro_dirs_optimized` returns. -/
def selectedPros (pros : List ProEntry) (lim : Option Int) : List ProEntry :=
  capFilterLoop (fun p => p.isDir) pros lim []

/-- The innermost loop of `collect_events`: skip unreadable objects (warning
logged), keep payloads whose extracted terminal equals the target, append
the provenance-stamped row. -/
def fileLoop (terminal : String) (dirDate : Date) (proUri : String) :
    List FileEntry → List JObj → List JObj
  | [], rows => rows
  | f :: rest, rows =>
    match f.content with
    | none => fileLoop terminal dirDate proUri rest rows
    | some payload =>
      if pyEq (extractCurrentTerminal payload) terminal then
        fileLoop terminal dirDate proUri rest
          (rows ++ [mkRow payload dirDate proUri f.name])
      else fileLoop terminal dirDate proUri rest rows

/-- The loop over the selected PRO directories of one date directory. -/
def proLoop (container terminal : String) (dirDate : Date) (datePath : String)
    (filesLimit : Option Int) : List ProEntry → List JObj → List JObj
  | [], rows => rows
  | p :: rest, rows =>
    proLoop container terminal dirDate datePath filesLimit rest
      (fileLoop terminal dirDate (mkAbfsUri container (datePath ++ "/" ++ p.seg))
        (_get_json_files p.files filesLimit) rows)

/-- The outer loop over the sorted date directories, skipping out-of-range
dates (`continue`). -/
def dateLoop (container terminal : String) (startD endD : Date)
    (proLimit filesLimit : Option Int) :
    List (DateEntry × Date) → List JObj → List JObj
  | [], rows => rows
  | (e, d) :: rest, rows =>
    if Date.ltb d startD || Date.ltb endD d then
      dateLoop container terminal startD endD proLimit filesLimit rest rows
    else
      dateLoop container terminal startD endD proLimit filesLimit rest
        (proLoop container terminal d (lastSeg e.name) filesLimit
          (selectedPros e.pros proLimit) rows)

/-- The `rows` list of `collect_events`, in source append order. -/
def collectRows (container : String) (store : Store) (startD endD : Date)
    (terminal : String) (proLimit filesLimit : Option Int) : List JObj :=
  dateLoop container terminal startD endD proLimit filesLimit
    (sortedDateDirs store) []

structure Trace where
  lsCalls : Nat
  openCalls : Nat
deriving DecidableEq

/-- Store I/O counts of the traversal: the root listing, one listing per
in-range date directory, one per selected PRO directory, one open per
listed JSON file (attempted also when the open fails). -/
def traverseTrace (store : Store) (startD endD : Date)
    (proLimit filesLimit : Option Int) : Trace :=
  let dates := (sortedDateDirs store).filter
    (fun x => !(Date.ltb x.2 startD || Date.ltb endD x.2))
  let pros := dates.flatMap (fun x => selectedPros x.1.pros proLimit)
  let files := pros.flatMap (fun p => _get_json_files p.files filesLimit)
  ⟨1 + dates.length + pros.length, files.length⟩

/-- `collect_events`: the filesystem handle is constructed first (the
credential shapes are resolved there and a missing shape raises — handle
construction performs no store listing or read), then the date-range check
raises, and only then does the traversal touch the store. -/
def collect_events (credsOk : Bool) (container : String) (store : Store)
    (startD endD : Date) (terminal : String)
    (proLimit filesLimit : Option Int) : Trace × Except String (List JObj) :=
  if !credsOk then
    (⟨0, 0⟩, Except.error "No valid Azure auth found")
  else if Date.ltb endD startD then
    (⟨0, 0⟩, Except.error "end_date must be on/after start_date")
  else
    (traverseTrace store startD endD proLimit filesLimit,
     Except.ok (collectRows container store startD endD terminal
       proLimit filesLimit))

/-! ### The export tail of `main` -/

/-- The DataFrame column set: union of row keys in first-appearance order. -/
def dfColumns (rows : List JObj) : List String :=
  rows.foldl (fun cols r => r.foldl
    (fun cols2 p => if cols2.contains p.1 then cols2 else cols2 ++ [p.1]) cols) []

/-- The written CSV (path, header columns, data rows) and the return code. -/
structure ExportResult where
  outPath : String
  columns : List String
  dataRows : List JObj
  exitCode : Nat

/-- The tail of `main`: `df.to_csv(args.out)` runs in both branches (the
empty branch merely logs a warning first), then `return 0`. -/
def mainExport (rows : List JObj) (out : String) : ExportResult :=
  ⟨out, dfColumns rows, rows, 0⟩

/-- `main` after argument parsing: collect, then export; an uncaught
collect error propagates out of `main` (non-zero process exit). -/
def runMain (credsOk : Bool) (container : String) (store : Store)
    (startD endD : Date) (terminal : String) (proLimit filesLimit : Option Int)
    (out : String) : Trace × Except String ExportResult :=
  match collect_events credsOk container store startD endD terminal
      proLimit filesLimit with
  | (t, Except.error e) => (t, Except.error e)
  | (t, Except.ok rows) => (t, Except.ok (mainExport rows out))

/-! ### Loop-to-flatMap characterization of the accumulated rows -/

/-- The rows one PRO directory's listed files contribute. -/
def fileRows (terminal : String) (dirDate : Date) (proUri : String)
    (files : List FileEntry) : List JObj :=
  files.flatMap (fun f =>
    match f.content with
    | none => []
    | some payload =>
      if pyEq (extractCurrentTerminal payload) terminal then
        [mkRow payload dirDate proUri f.name]
      else [])

/-- The rows one date directory contributes. -/
def proRows (container terminal : String) (dirDate : Date) (datePath : String)
    (filesLimit : Option Int) (pros : List ProEntry) : List JObj :=
  pros.flatMap (fun p =>
    fileRows terminal dirDate (mkAbfsUri container (datePath ++ "/" ++ p.seg))
      (_get_json_files p.files filesLimit))

/-- The rows of the whole (sorted) date sequence. -/
def dateRows (container terminal : String) (startD endD : Date)
    (proLimit filesLimit : Option Int) (l : List (DateEntry × Date)) : List JObj :=
  l.flatMap (fun x =>
    if Date.ltb x.2 startD || Date.ltb endD x.2 then []
    else proRows container terminal x.2 (lastSeg x.1.name) filesLimit
      (selectedPros x.1.pros proLimit))

theorem fileLoop_eq_append (terminal : String) (dirDate : Date) (proUri : String)
    (files : List FileEntry) : ∀ rows : List JObj,
    fileLoop terminal dirDate proUri files rows
      = rows ++ fileRows terminal dirDate proUri files := by
  induction files with
  | nil => intro rows; simp [fileLoop, fileRows]
  | cons f rest ih =>
    intro rows
    cases hc : f.content with
    | none => simp [fileLoop, hc, ih, fileRows]
    | some payload =>
      by_cases hm : pyEq (extractCurrentTerminal payload) terminal = true
      · simp [fileLoop, hc, hm, ih, fileRows]
      · simp only [Bool.not_eq_true] at hm
        simp [fileLoop, hc, hm, ih, fileRows]

theorem proLoop_eq_append (container terminal : String) (dirDate : Date)
    (datePath : String) (filesLimit : Option Int) (pros : List ProEntry) :
    ∀ rows : List JObj,
    proLoop container terminal dirDate datePath filesLimit pros rows
      = rows ++ proRows container terminal dirDate datePath filesLimit pros := by
  induction pros with
  | nil => intro rows; simp [proLoop, proRows]
  | cons p rest ih =>
    intro rows
    simp [proLoop, ih, fileLoop_eq_append, proRows]

theorem dateLoop_eq_append (container terminal : String) (startD endD : Date)
    (proLimit filesLimit : Option Int) (l : List (DateEntry × Date)) :
    ∀ rows : List JObj,
    dateLoop container terminal startD endD proLimit filesLimit l rows
      = rows ++ dateRows container terminal startD endD proLimit filesLimit l := by
  induction l with
  | nil => intro rows; simp [dateLoop, dateRows]
  | cons x rest ih =>
    intro rows
    obtain ⟨e, d⟩ := x
    have hcons : dateRows container terminal startD endD proLimit filesLimit
        ((e, d) :: rest)
        = (if Date.ltb d startD || Date.ltb endD d then []
           else proRows container terminal d (lastSeg e.name) filesLimit
             (selectedPros e.pros proLimit))
          ++ dateRows container terminal startD endD proLimit filesLimit rest := by
      simp [dateRows]
    by_cases hr : (Date.ltb d startD || Date.ltb endD d) = true
    · simp only [dateLoop, if_pos hr]
      rw [ih rows, hcons, if_pos hr, List.nil_append]
    · simp only [dateLoop, if_neg hr]
      rw [ih, proLoop_eq_append, hcons, if_neg hr, List.append_assoc]

/-- The accumulated rows are exactly the flatMap over the sorted, in-range
date sequence. -/
theorem collectRows_eq (container : String) (store : Store) (startD endD : Date)
    (terminal : String) (proLimit filesLimit : Option Int) :
    collectRows container store startD endD terminal proLimit filesLimit
      = dateRows container terminal startD endD proLimit filesLimit
          (sortedDateDirs store) := by
  unfold collectRows
  rw [dateLoop_eq_append]
  simp

/-- C2: for every run whose parsed end date lies strictly before the start
date, the fatal range error is raised before any store listing or object
read (the trace is zero either way — the only even-earlier abort, a missing
credential shape, also touches no store I/O). -/
theorem c2_range_error_before_io (credsOk : Bool) (container : String)
    (store : Store) (startD endD : Date) (terminal : String)
    (pl fl : Option Int) (h : Date.ltb endD startD = true) :
    collect_events true container store startD endD terminal pl fl
      = (⟨0, 0⟩, Except.error "end_date must be on/after start_date")
    ∧ (collect_events credsOk container store startD endD terminal pl fl).1
      = ⟨0, 0⟩
    ∧ ∃ msg, (collect_events credsOk container store startD endD terminal
        pl fl).2 = Except.error msg := by
  refine ⟨by simp [collect_events, h], ?_, ?_⟩
  · cases credsOk <;> simp [collect_events, h]
  · cases credsOk with
    | false => exact ⟨"No valid Azure auth found", by simp [collect_events]⟩
    | true =>
      exact ⟨"end_date must be on/after start_date", by simp [collect_events, h]⟩

/-- Witness for C2 at the concrete reversed range 2025-08-02 .. 2025-08-01. -/
theorem c2_witness :
    collect_events true "shipmentsestesprod02"
        [⟨"2025-8-1", true, [⟨"PRO1", true, [⟨"a.json", true, some exTopOnly⟩]⟩]⟩]
        ⟨2025, 8, 2⟩ ⟨2025, 8, 1⟩ "010-CLT" (some 20) (some 10)
      = (⟨0, 0⟩, Except.error "end_date must be on/after start_date")
    ∧ (collect_events true "shipmentsestesprod02"
        [⟨"2025-8-1", true, [⟨"PRO1", true, [⟨"a.json", true, some exTopOnly⟩]⟩]⟩]
        ⟨2025, 8, 2⟩ ⟨2025, 8, 1⟩ "010-CLT" (some 20) (some 10)).1 = ⟨0, 0⟩
    ∧ ∃ msg, (collect_events true "shipmentsestesprod02"
        [⟨"2025-8-1", true, [⟨"PRO1", true, [⟨"a.json", true, some exTopOnly⟩]⟩]⟩]
        ⟨2025, 8, 2⟩ ⟨2025, 8, 1⟩ "010-CLT" (some 20) (some 10)).2
        = Except.error msg :=
  c2_range_error_before_io true "shipmentsestesprod02"
    [⟨"2025-8-1", true, [⟨"PRO1", true, [⟨"a.json", true, some exTopOnly⟩]⟩]⟩]
    ⟨2025, 8, 2⟩ ⟨2025, 8, 1⟩ "010-CLT" (some 20) (some 10) (by decide)

/-- C5: when zero records match, the run still writes the output file, the
written table is empty (no columns, no data rows), and the exit code is 0. -/
theorem c5_zero_match_empty_csv (container : String) (store : Store)
    (startD endD : Date) (terminal : String) (pl fl : Option Int) (out : String)
    (hrange : Date.ltb endD startD = false)
    (hzero : collectRows container store startD endD terminal pl fl = []) :
    runMain true container store startD endD terminal pl fl out
      = (traverseTrace store startD endD pl fl,
         Except.ok ⟨out, [], [], 0⟩) := by
  simp [runMain, collect_events, hrange, hzero, mainExport, dfColumns]

/-- Witness for C5: a store holding one readable record for a different
terminal — nothing matches, the CSV is still written empty, exit code 0. -/
theorem c5_witness :
    runMain true "shipmentsestesprod02"
        [⟨"2025-8-11", true, [⟨"PRO1", true,
          [⟨"a.json", true, some [("currentTerminal", Json.str "099-XYZ")]⟩]⟩]⟩]
        ⟨2025, 8, 1⟩ ⟨2025, 8, 31⟩ "010-CLT" (some 20) (some 10) "out.csv"
      = (traverseTrace
          [⟨"2025-8-11", true, [⟨"PRO1", true,
            [⟨"a.json", true, some [("currentTerminal", Json.str "099-XYZ")]⟩]⟩]⟩]
          ⟨2025, 8, 1⟩ ⟨2025, 8, 31⟩ (some 20) (some 10),
         Except.ok ⟨"out.csv", [], [], 0⟩) :=
  c5_zero_match_empty_csv "shipmentsestesprod02"
    [⟨"2025-8-11", true, [⟨"PRO1", true,
      [⟨"a.json", true, some [("currentTerminal", Json.str "099-XYZ")]⟩]⟩]⟩]
    ⟨2025, 8, 1⟩ ⟨2025, 8, 31⟩ "010-CLT" (some 20) (some 10) "out.csv"
    (by decide) (by rfl)

/-- C8: an object whose open or JSON parse fails is skipped with a warning:
the accumulated row list is unchanged by that object, traversal continues
with the next object, and the run does not abort. -/
theorem c8_unreadable_object_skipped (terminal : String) (d : Date)
    (proUri : String) (pre post : List FileEntry) (bad : FileEntry)
    (rows : List JObj) (hbad : bad.content = none) :
    fileLoop terminal d proUri (pre ++ bad :: post) rows
      = fileLoop terminal d proUri (pre ++ post) rows
    ∧ ∀ (container : String) (store : Store) (startD endD : Date)
        (pl fl : Option Int), Date.ltb endD startD = false →
        (collect_events true container store startD endD terminal pl fl).2
          = Except.ok (collectRows container store startD endD terminal pl fl) := by
  constructor
  · induction pre generalizing rows with
    | nil => simp [fileLoop, hbad]
    | cons f rest ih =>
      cases hc : f.content with
      | none => simpa [fileLoop, hc] using ih rows
      | some payload =>
        by_cases hm : pyEq (extractCurrentTerminal payload) terminal = true
        · simpa [fileLoop, hc, hm] using
            ih (rows ++ [mkRow payload d proUri f.name])
        · simp only [Bool.not_eq_true] at hm
          simpa [fileLoop, hc, hm] using ih rows
  · intro container store startD endD pl fl hrange
    simp [collect_events, hrange]

/-- Witness for C8 with a concrete unreadable object between two readable
ones. -/
theorem c8_witness :
    fileLoop "010-CLT" ⟨2025, 8, 11⟩ "abfs://c/2025-8-11/PRO1"
        ([⟨"a.json", true, some exTopOnly⟩]
          ++ ⟨"bad.json", true, none⟩ :: [⟨"c.json", true, some exTopOnly⟩]) []
      = fileLoop "010-CLT" ⟨2025, 8, 11⟩ "abfs://c/2025-8-11/PRO1"
          ([⟨"a.json", true, some exTopOnly⟩]
            ++ [⟨"c.json", true, some exTopOnly⟩]) []
    ∧ ∀ (container : String) (store : Store) (startD endD : Date)
        (pl fl : Option Int), Date.ltb endD startD = false →
        (collect_events true container store startD endD "010-CLT" pl fl).2
          = Except.ok (collectRows container store startD endD "010-CLT" pl fl) :=
  c8_unreadable_object_skipped "010-CLT" ⟨2025, 8, 11⟩ "abfs://c/2025-8-11/PRO1"
    [⟨"a.json", true, some exTopOnly⟩] [⟨"c.json", true, some exTopOnly⟩]
    ⟨"bad.json", true, none⟩ [] (by rfl)

/-! ### Provenance lemmas -/

theorem mkRow_file_date (payload : JObj) (d : Date) (proUri path : String) :
    dictGet? (mkRow payload d proUri path) "_file_date"
      = some (Json.str d.iso) := by
  unfold mkRow
  rw [dictGet?_dictInsert, if_neg (by decide), dictGet?_dictInsert,
    if_neg (by decide), dictGet?_dictInsert, if_pos rfl]

theorem mkRow_pro_folder (payload : JObj) (d : Date) (proUri path : String) :
    dictGet? (mkRow payload d proUri path) "_pro_folder"
      = some (Json.str (lastSeg proUri)) := by
  unfold mkRow
  rw [dictGet?_dictInsert, if_neg (by decide), dictGet?_dictInsert, if_pos rfl]

theorem mkRow_source_path (payload : JObj) (d : Date) (proUri path : String) :
    dictGet? (mkRow payload d proUri path) "_source_path"
      = some (Json.str path) := by
  unfold mkRow
  rw [dictGet?_dictInsert, if_pos rfl]

/-- C6: every emitted row comes from a traversal position (in-range date
directory, selected PRO directory, listed readable matching object) and its
provenance fields are exactly the position's data: `_file_date` the ISO
date of the date directory, `_pro_folder` the trailing segment of the
entity-directory path, `_source_path` the full object path that was opened
— all present (non-null) for every payload, since the three assignments
happen after normalization and overwrite any payload key of the same name. -/
theorem c6_provenance_fields (container : String) (store : Store)
    (startD endD : Date) (terminal : String) (pl fl : Option Int) (r : JObj)
    (hr : r ∈ collectRows container store startD endD terminal pl fl) :
    ∃ (e : DateEntry) (d : Date) (p : ProEntry) (f : FileEntry) (payload : JObj),
      (e, d) ∈ sortedDateDirs store
      ∧ Date.ltb d startD = false ∧ Date.ltb endD d = false
      ∧ p ∈ selectedPros e.pros pl
      ∧ f ∈ _get_json_files p.files fl
      ∧ f.content = some payload
      ∧ pyEq (extractCurrentTerminal payload) terminal = true
      ∧ r = mkRow payload d
          (mkAbfsUri container (lastSeg e.name ++ "/" ++ p.seg)) f.name
      ∧ dictGet? r "_file_date" = some (Json.str d.iso)
      ∧ dictGet? r "_pro_folder" = some (Json.str
          (lastSeg (mkAbfsUri container (lastSeg e.name ++ "/" ++ p.seg))))
      ∧ dictGet? r "_source_path" = some (Json.str f.name) := by
  rw [collectRows_eq] at hr
  unfold dateRows at hr
  rw [List.mem_flatMap] at hr
  obtain ⟨x, hx, hrx⟩ := hr
  by_cases hskip : (Date.ltb x.2 startD || Date.ltb endD x.2) = true
  · rw [if_pos hskip] at hrx
    simp at hrx
  · rw [if_neg hskip] at hrx
    have hskip' : Date.ltb x.2 startD = false ∧ Date.ltb endD x.2 = false := by
      have := hskip
      simp only [Bool.or_eq_true, not_or, Bool.not_eq_true] at this
      exact this
    unfold proRows at hrx
    rw [List.mem_flatMap] at hrx
    obtain ⟨p, hp, hrp⟩ := hrx
    unfold fileRows at hrp
    rw [List.mem_flatMap] at hrp
    obtain ⟨f, hf, hrf⟩ := hrp
    cases hc : f.content with
    | none =>
      rw [hc] at hrf
      simp at hrf
    | some payload =>
      rw [hc] at hrf
      by_cases hm : pyEq (extractCurrentTerminal payload) terminal = true
      · have hrf' : r = mkRow payload x.2
            (mkAbfsUri container (lastSeg x.1.name ++ "/" ++ p.seg)) f.name := by
          simpa [hm] using hrf
        subst hrf'
        exact ⟨x.1, x.2, p, f, payload, hx, hskip'.1, hskip'.2, hp, hf, hc, hm,
          rfl, mkRow_file_date payload x.2 _ f.name,
          mkRow_pro_folder payload x.2 _ f.name,
          mkRow_source_path payload x.2 _ f.name⟩
      · exact absurd hrf (by simp [hm])

/-- The one-record store of the C6 witness. -/
def c6Store : Store :=
  [⟨"2025-8-11", true, [⟨"PRO1", true,
    [⟨"abfs://c/2025-8-11/PRO1/a.json", true, some exTopOnly⟩]⟩]⟩]

/-- The row that traversing `c6Store` emits. -/
def c6Row : JObj :=
  mkRow exTopOnly ⟨2025, 8, 11⟩
    (mkAbfsUri "c" (lastSeg "2025-8-11" ++ "/" ++ "PRO1"))
    "abfs://c/2025-8-11/PRO1/a.json"

theorem c6_row_mem :
    c6Row ∈ collectRows "c" c6Store ⟨2025, 8, 1⟩ ⟨2025, 8, 31⟩ "010-CLT"
      (some 20) (some 10) := by
  have h : collectRows "c" c6Store ⟨2025, 8, 1⟩ ⟨2025, 8, 31⟩ "010-CLT"
      (some 20) (some 10) = [c6Row] := rfl
  rw [h]
  exact List.mem_singleton.mpr rfl

/-- Witness for C6 at the one-record store. -/
theorem c6_witness :
    ∃ (e : DateEntry) (d : Date) (p : ProEntry) (f : FileEntry) (payload : JObj),
      (e, d) ∈ sortedDateDirs c6Store
      ∧ Date.ltb d ⟨2025, 8, 1⟩ = false ∧ Date.ltb ⟨2025, 8, 31⟩ d = false
      ∧ p ∈ selectedPros e.pros (some 20)
      ∧ f ∈ _get_json_files p.files (some 10)
      ∧ f.content = some payload
      ∧ pyEq (extractCurrentTerminal payload) "010-CLT" = true
      ∧ c6Row = mkRow payload d
          (mkAbfsUri "c" (lastSeg e.name ++ "/" ++ p.seg)) f.name
      ∧ dictGet? c6Row "_file_date" = some (Json.str d.iso)
      ∧ dictGet? c6Row "_pro_folder" = some (Json.str
          (lastSeg (mkAbfsUri "c" (lastSeg e.name ++ "/" ++ p.seg))))
      ∧ dictGet? c6Row "_source_path" = some (Json.str f.name) :=
  c6_provenance_fields "c" c6Store ⟨2025, 8, 1⟩ ⟨2025, 8, 31⟩ "010-CLT"
    (some 20) (some 10) c6Row c6_row_mem

/-- The C7 example store: date directories listed out of ascending order,
one date holding two PRO directories in non-alphabetical listing order, the
first of which lists the same matching object twice. -/
def c7Store : Store :=
  [⟨"2025-8-20", true, [⟨"PRO9", true, [⟨"h.json", true, some exTopOnly⟩]⟩]⟩,
   ⟨"2025-8-10", true,
     [⟨"zPro", true, [⟨"f.json", true, some exTopOnly⟩,
                      ⟨"f.json", true, some exTopOnly⟩]⟩,
      ⟨"aPro", true, [⟨"g.json", true, some exTopOnly⟩]⟩]⟩]

/-- C7: rows are appended in traversal order — the date sequence is the
sorted (ascending by parsed date) permutation of the discovered date
directories and the output is exactly the concatenation over it, entity and
file listing order preserved within a date; nothing is deduplicated or
re-sorted afterward (the example store yields the duplicated row twice and
keeps `zPro` before `aPro`). -/
theorem c7_traversal_order (container : String) (store : Store)
    (startD endD : Date) (terminal : String) (pl fl : Option Int) :
    collectRows container store startD endD terminal pl fl
      = dateRows container terminal startD endD pl fl (sortedDateDirs store)
    ∧ List.Sorted dateKeyLE (sortedDateDirs store)
    ∧ (sortedDateDirs store).Perm (iterDateDirs store)
    ∧ collectRows "c" c7Store ⟨2025, 8, 1⟩ ⟨2025, 8, 31⟩ "010-CLT" none none
      = [mkRow exTopOnly ⟨2025, 8, 10⟩
           (mkAbfsUri "c" (lastSeg "2025-8-10" ++ "/" ++ "zPro")) "f.json",
         mkRow exTopOnly ⟨2025, 8, 10⟩
           (mkAbfsUri "c" (lastSeg "2025-8-10" ++ "/" ++ "zPro")) "f.json",
         mkRow exTopOnly ⟨2025, 8, 10⟩
           (mkAbfsUri "c" (lastSeg "2025-8-10" ++ "/" ++ "aPro")) "g.json",
         mkRow exTopOnly ⟨2025, 8, 20⟩
           (mkAbfsUri "c" (lastSeg "2025-8-20" ++ "/" ++ "PRO9")) "h.json"] :=
  ⟨collectRows_eq container store startD endD terminal pl fl,
   List.sorted_insertionSort dateKeyLE (iterDateDirs store),
   List.perm_insertionSort dateKeyLE (iterDateDirs store),
   rfl⟩

end RouteMax
